import Mathlib

/-!
Verification of the reconciliation and apply engine of the datasync plugin.

The development shallowly embeds the core of `src/sync_engine.py`
(`SyncEngine.generate_diff`, `SyncEngine._values_equal`,
`SyncEngine.execute_sync`, `SyncEngine._insert_record`,
`SyncEngine._update_record`), the sync-relevant part of
`src/connection_manager.py` (`ConnectionManager.fetch_records`) and
`src/mapping_store.py` (`MappingStore.get_compatible_mappings`).

Python dictionaries are embedded as association lists with
insert-or-replace assignment (`dset`) and first-match lookup (`dget`),
which preserves insertion order exactly as Python dicts do.  Scalar cell
values are embedded as `Value` (null, text, or integer); `str(v)` is
embedded as `pyStr`.  The database table touched by the apply step is a
list of rows; a psycopg2 connection is a pair of a committed and a
pending table state, `commit` publishing the pending state and
`rollback` discarding it.
-/

/-- A scalar cell value: Python `None`, a string, or an integer. -/
inductive Value where
  | vnull : Value
  | vstr : String → Value
  | vint : Int → Value
deriving DecidableEq, Repr

/-- Python `str(v)` for the scalar values the engine compares.
Only applied to non-null values by `values_equal`. -/
def pyStr : Value → String
  | Value.vnull => "None"
  | Value.vstr s => s
  | Value.vint n => toString n

/-- Python `s.strip()`: remove leading and trailing whitespace. -/
def pyStrip (s : String) : String :=
  String.mk (((s.data.dropWhile Char.isWhitespace).reverse.dropWhile Char.isWhitespace).reverse)

/-- `SyncEngine._values_equal`: None/None equal, one-sided None unequal,
otherwise compare the stripped string renderings. -/
def values_equal (val1 val2 : Value) : Bool :=
  match val1, val2 with
  | Value.vnull, Value.vnull => true
  | Value.vnull, _ => false
  | _, Value.vnull => false
  | v1, v2 => pyStrip (pyStr v1) == pyStrip (pyStr v2)

/-- First-match lookup in an association list (Python `d[k]` / `d.get(k)`). -/
def dget {κ α : Type} [DecidableEq κ] : List (κ × α) → κ → Option α
  | [], _ => none
  | (k, v) :: rest, key => if k = key then some v else dget rest key

/-- Python dict assignment `d[k] = v`: replace in place if the key is
present (keeping its position, as Python dicts do), else append. -/
def dset {κ α : Type} [DecidableEq κ] : List (κ × α) → κ → α → List (κ × α)
  | [], key, val => [(key, val)]
  | (k, v) :: rest, key, val =>
    if k = key then (key, val) :: rest else (k, v) :: dset rest key val

/-- A row: mapping from column/field name to value. -/
abbrev Row := List (String × Value)

/-- A database table: ordered list of rows. -/
abbrev Table := List Row

/-- Python `row.get(c)` (missing key yields `None`); also models reading a
column of a database row (missing column yields SQL NULL). -/
def rowGetD (r : Row) (c : String) : Value := (dget r c).getD Value.vnull

/-- The engine configuration set by `SyncEngine.configure`. -/
structure SyncConfig where
  schema : String
  table : String
  key_column_excel : String
  key_column_db : String
  column_mapping : List (String × String)
deriving DecidableEq, Repr

/-- The three change kinds of `sync_engine.py`. -/
inductive ChangeType where
  | UNCHANGED : ChangeType
  | ADDED : ChangeType
  | MODIFIED : ChangeType
deriving DecidableEq, Repr

/-- One diff item produced by `SyncEngine.generate_diff`.  The Python
item is a dict; the `changes` and `excel_values` keys are absent for
some kinds, embedded here as `Option` fields (`none` = key absent). -/
structure DiffItem where
  change_type : ChangeType
  key_value : Value
  changes : Option (List (String × (Value × Value)))
  excel_values : Option (List (String × Value))
deriving DecidableEq, Repr

/-- The `excel_values` dict built in `generate_diff`:
`for excel_col, db_col in column_mapping.items(): excel_values[db_col] = excel_row.get(excel_col)`. -/
def buildExcelValues (mapping : List (String × String)) (row : Row) : List (String × Value) :=
  mapping.foldl (fun acc p => dset acc p.2 (rowGetD row p.1)) []

/-- The `changes` dict built in `generate_diff` for a key found in the
database: one entry per mapped column whose values are not equal,
holding the (excel, db) value pair. -/
def computeChanges (ev : List (String × Value)) (dbr : Row) : List (String × (Value × Value)) :=
  ev.foldl (fun acc p =>
    let d := rowGetD dbr p.1
    if values_equal p.2 d then acc else dset acc p.1 (p.2, d)) []

/-- The body of the per-row loop of `SyncEngine.generate_diff`: `none`
when the row's key is null (the `continue`), otherwise the appended
diff item. -/
def diffEntry (cfg : SyncConfig) (db_records : List (Value × Row)) (excel_row : Row) :
    Option DiffItem :=
  let key_value := rowGetD excel_row cfg.key_column_excel
  if key_value = Value.vnull then none
  else
    let excel_values := buildExcelValues cfg.column_mapping excel_row
    match dget db_records key_value with
    | some db_record =>
      let changes := computeChanges excel_values db_record
      if changes = [] then
        some { change_type := ChangeType.UNCHANGED, key_value := key_value,
               changes := none, excel_values := none }
      else
        some { change_type := ChangeType.MODIFIED, key_value := key_value,
               changes := some changes, excel_values := some excel_values }
    | none =>
      some { change_type := ChangeType.ADDED, key_value := key_value,
             changes := none, excel_values := some excel_values }

/-- The comparison loop of `SyncEngine.generate_diff`, given the already
fetched database records. -/
def generate_diff (cfg : SyncConfig) (db_records : List (Value × Row)) (excel_rows : List Row) :
    List DiffItem :=
  excel_rows.filterMap (diffEntry cfg db_records)

/-- The record dict built per fetched row in
`ConnectionManager.fetch_records`: `{key_column: key_value}` then one
assignment per value column. -/
def mkFetchedRecord (kc : String) (vcs : List String) (row : Row) : Row :=
  vcs.foldl (fun acc c => dset acc c (rowGetD row c)) [(kc, rowGetD row kc)]

/-- `ConnectionManager.fetch_records`: scan the table, keying each row's
record by its key-column value (last-seen wins on duplicate keys). -/
def fetch_records (kc : String) (vcs : List String) (t : Table) : List (Value × Row) :=
  t.foldl (fun recs row => dset recs (rowGetD row kc) (mkFetchedRecord kc vcs row)) []

/-- `SyncEngine.generate_diff` including its unconditional call to
`ConnectionManager.fetch_records`; the second component records the
fetch calls performed. -/
structure FetchCall where
  schema : String
  table : String
  key_column : String
  value_columns : List String
deriving DecidableEq, Repr

/-- `SyncEngine.generate_diff` from the table state: computes the value
columns, performs the fetch, then runs the comparison loop.  Returns the
diff together with the trace of fetch calls made. -/
def generate_diff_run (cfg : SyncConfig) (t : Table) (excel_rows : List Row) :
    List DiffItem × List FetchCall :=
  let db_value_columns := cfg.column_mapping.map Prod.snd
  let db_records := fetch_records cfg.key_column_db db_value_columns t
  (generate_diff cfg db_records excel_rows,
   [{ schema := cfg.schema, table := cfg.table, key_column := cfg.key_column_db,
      value_columns := db_value_columns }])

/-- `SyncEngine._insert_record`: INSERT of the key column plus every
mapped column, appending one row to the (pending) table.  ADDED items
always carry `excel_values`. -/
def insert_record (cfg : SyncConfig) (t : Table) (item : DiffItem) : Table :=
  t ++ [(cfg.key_column_db, item.key_value) :: item.excel_values.getD []]

/-- Apply the SET clauses of `SyncEngine._update_record` to one row:
each changed column is set to its excel-side value. -/
def rowApplyChanges (m : List (String × (Value × Value))) (r : Row) : Row :=
  m.foldl (fun acc p => dset acc p.1 p.2.1) r

/-- `SyncEngine._update_record`: UPDATE of the changed columns on every
row whose key column equals the item's key value.  MODIFIED items always
carry `changes`. -/
def update_record (cfg : SyncConfig) (t : Table) (item : DiffItem) : Table :=
  t.map (fun r =>
    if rowGetD r cfg.key_column_db = item.key_value then
      rowApplyChanges (item.changes.getD []) r
    else r)

/-- The filter of `execute_sync`: `d['change_type'] in (ADDED, MODIFIED)`. -/
def isActionable (d : DiffItem) : Bool :=
  match d.change_type with
  | ChangeType.ADDED => true
  | ChangeType.MODIFIED => true
  | ChangeType.UNCHANGED => false

/-- Store operations performed by `execute_sync` on the connection. -/
inductive StoreOp where
  | opInsert : DiffItem → StoreOp
  | opUpdate : DiffItem → StoreOp
  | opCommit : StoreOp
  | opRollback : StoreOp
deriving DecidableEq, Repr

/-- A psycopg2 connection: the committed table state (what the database
publishes) and the pending state of the open transaction. -/
structure Conn where
  committed : Table
  pending : Table
deriving DecidableEq, Repr

/-- The try-block loop of `execute_sync` over the filtered changes.
`err i` is the error, if any, the underlying store raises for the i-th
executed statement; the loop stops at the first error.  Returns the
pending table, the inserted/updated counts, the statement trace, and the
raised error if any. -/
def applyChanges (cfg : SyncConfig) (err : Nat → Option String) :
    List DiffItem → Nat → Table → Nat → Nat → List StoreOp →
    Table × Nat × Nat × List StoreOp × Option String
  | [], _, t, ins, upd, ops => (t, ins, upd, ops, none)
  | item :: rest, i, t, ins, upd, ops =>
    match item.change_type with
    | ChangeType.ADDED =>
      match err i with
      | some e => (t, ins, upd, ops, some e)
      | none =>
        applyChanges cfg err rest (i + 1) (insert_record cfg t item) (ins + 1) upd
          (ops ++ [StoreOp.opInsert item])
    | ChangeType.MODIFIED =>
      match err i with
      | some e => (t, ins, upd, ops, some e)
      | none =>
        applyChanges cfg err rest (i + 1) (update_record cfg t item) ins (upd + 1)
          (ops ++ [StoreOp.opUpdate item])
    | ChangeType.UNCHANGED => applyChanges cfg err rest (i + 1) t ins upd ops

/-- `SyncEngine.execute_sync`: connection check, filter to actionable
entries, no-op short circuit, then the transactional loop with commit on
success and rollback on any error.  Returns the connection state, the
trace of store operations, and the (success, message) pair. -/
def execute_sync (cfg : SyncConfig) (conn : Option Conn) (err : Nat → Option String)
    (diff_data : List DiffItem) : Option Conn × List StoreOp × Bool × String :=
  match conn with
  | none => (none, [], false, "Not connected to database")
  | some c =>
    let changes := diff_data.filter isActionable
    if changes = [] then (some c, [], true, "No changes to apply")
    else
      match applyChanges cfg err changes 0 c.pending 0 0 [] with
      | (t, ins, upd, ops, none) =>
        (some { committed := t, pending := t }, ops ++ [StoreOp.opCommit], true,
         "Successfully applied changes: " ++ toString ins ++ " inserted, " ++
           toString upd ++ " updated")
      | (_, _, _, ops, some e) =>
        (some { committed := c.committed, pending := c.committed },
         ops ++ [StoreOp.opRollback], false, "Sync failed: " ++ e)

/-- One iteration of the execute_sync loop without errors. -/
def applyOne (cfg : SyncConfig) (t : Table) (item : DiffItem) : Table :=
  match item.change_type with
  | ChangeType.ADDED => insert_record cfg t item
  | ChangeType.MODIFIED => update_record cfg t item
  | ChangeType.UNCHANGED => t

/-- The last row of the table whose key column holds k (the row whose
record survives the last-seen-wins keying of fetch_records). -/
def lastRowWith (kc : String) (k : Value) : Table → Option Row
  | [] => none
  | r :: t =>
    match lastRowWith kc k t with
    | some r2 => some r2
    | none => if rowGetD r kc = k then some r else none

/-- One saved mapping record of `MappingStore`. -/
structure SavedMapping where
  table : String
  key_excel : String
  key_db : String
  column_mappings : List (String × String)
  excel_cols_required : List String
  db_cols_required : List String
deriving DecidableEq, Repr

/-- `MappingStore.get_compatible_mappings`: keep the names whose table
matches and whose required excel and db columns are subsets of the
available ones. -/
def get_compatible_mappings (data : List (String × SavedMapping)) (table : String)
    (excel_cols : List String) (db_cols : List String) : List String :=
  data.filterMap (fun p =>
    if p.2.table = table then
      if ∀ c ∈ p.2.excel_cols_required, c ∈ excel_cols then
        if ∀ c ∈ p.2.db_cols_required, c ∈ db_cols then some p.1 else none
      else none
    else none)

/-! ### Association-list lemmas -/

theorem dget_dset_self {κ α : Type} [DecidableEq κ] (l : List (κ × α)) (k : κ) (v : α) :
    dget (dset l k v) k = some v := by
  induction l with
  | nil => simp [dset, dget]
  | cons p rest ih =>
    obtain ⟨k1, v1⟩ := p
    by_cases h : k1 = k
    · subst h; simp [dset, dget]
    · simp [dset, dget, h, ih]

theorem dget_dset_ne {κ α : Type} [DecidableEq κ] (l : List (κ × α)) (k k2 : κ) (v : α)
    (h : k ≠ k2) : dget (dset l k v) k2 = dget l k2 := by
  induction l with
  | nil => simp [dset, dget, h]
  | cons p rest ih =>
    obtain ⟨k1, v1⟩ := p
    by_cases h1 : k1 = k
    · subst h1; simp [dset, dget, h]
    · by_cases h2 : k1 = k2
      · subst h2; simp [dset, dget, h1]
      · simp [dset, dget, h1, h2, ih]

theorem mem_keys_dset {κ α : Type} [DecidableEq κ] (l : List (κ × α)) (k k2 : κ) (v : α) :
    k2 ∈ (dset l k v).map Prod.fst ↔ k2 ∈ l.map Prod.fst ∨ k2 = k := by
  induction l with
  | nil => simp [dset]
  | cons p rest ih =>
    obtain ⟨k1, v1⟩ := p
    by_cases h : k1 = k
    · subst h; simp [dset]; tauto
    · simp [dset, h, ih]; tauto

theorem nodup_keys_dset {κ α : Type} [DecidableEq κ] (l : List (κ × α)) (k : κ) (v : α)
    (h : (l.map Prod.fst).Nodup) : ((dset l k v).map Prod.fst).Nodup := by
  induction l with
  | nil => simp [dset]
  | cons p rest ih =>
    obtain ⟨k1, v1⟩ := p
    simp only [List.map_cons, List.nodup_cons] at h
    by_cases hk : k1 = k
    · subst hk; simpa [dset] using h
    · have hd : dset ((k1, v1) :: rest) k v = (k1, v1) :: dset rest k v := by
        simp [dset, hk]
      rw [hd]
      simp only [List.map_cons, List.nodup_cons]
      refine ⟨?_, ih h.2⟩
      rw [mem_keys_dset]
      push_neg
      exact ⟨h.1, hk⟩

theorem dset_eq_append {κ α : Type} [DecidableEq κ] (l : List (κ × α)) (k : κ) (v : α)
    (h : k ∉ l.map Prod.fst) : dset l k v = l ++ [(k, v)] := by
  induction l with
  | nil => simp [dset]
  | cons p rest ih =>
    obtain ⟨k1, v1⟩ := p
    simp only [List.map_cons, List.mem_cons] at h
    push_neg at h
    simp [dset, Ne.symm h.1, ih h.2]

theorem mem_of_dget {κ α : Type} [DecidableEq κ] {l : List (κ × α)} {k : κ} {v : α}
    (h : dget l k = some v) : (k, v) ∈ l := by
  induction l with
  | nil => simp [dget] at h
  | cons p rest ih =>
    obtain ⟨k1, v1⟩ := p
    by_cases h1 : k1 = k
    · subst h1
      simp only [dget, if_true, eq_self_iff_true, Option.some.injEq] at h
      simp [h]
    · simp only [dget, if_neg h1] at h
      simp [ih h]

theorem dget_of_mem {κ α : Type} [DecidableEq κ] {l : List (κ × α)}
    (hn : (l.map Prod.fst).Nodup) {k : κ} {v : α} (h : (k, v) ∈ l) : dget l k = some v := by
  induction l with
  | nil => simp at h
  | cons p rest ih =>
    obtain ⟨k1, v1⟩ := p
    simp only [List.map_cons, List.nodup_cons] at hn
    rcases List.mem_cons.mp h with heq | hmem
    · cases heq; simp [dget]
    · have hne : k1 ≠ k := by
        intro he
        subst he
        exact hn.1 (List.mem_map.mpr ⟨(k1, v), hmem, rfl⟩)
      simp [dget, hne, ih hn.2 hmem]

theorem dget_eq_none_iff {κ α : Type} [DecidableEq κ] (l : List (κ × α)) (k : κ) :
    dget l k = none ↔ k ∉ l.map Prod.fst := by
  induction l with
  | nil => simp [dget]
  | cons p rest ih =>
    obtain ⟨k1, v1⟩ := p
    by_cases h1 : k1 = k
    · subst h1; simp [dget]
    · simp [dget, h1, ih, Ne.symm h1]

theorem dget_foldl_dset {κ α : Type} [DecidableEq κ] (g : κ → α) (cs : List κ)
    (init : List (κ × α)) (k : κ) :
    dget (cs.foldl (fun acc c => dset acc c (g c)) init) k
      = if k ∈ cs then some (g k) else dget init k := by
  induction cs generalizing init with
  | nil => simp
  | cons c cs ih =>
    simp only [List.foldl_cons]
    rw [ih]
    by_cases hk : k ∈ cs
    · simp [hk]
    · by_cases hc : c = k
      · subst hc; simp [hk, dget_dset_self]
      · simp [hk, hc, Ne.symm hc, dget_dset_ne _ _ _ _ hc]

theorem values_equal_refl (v : Value) : values_equal v v = true := by
  cases v <;> simp [values_equal]

/-! ### Claim theorems: comparator and connection guard -/

/-- Claim C5: values_equal returns true when both values are null, false
when exactly one is null, and otherwise compares the canonical string
renderings with surrounding whitespace trimmed; in particular the string
"10" compares equal to the number 10. -/
theorem values_equal_spec :
    (∀ a b : Value, values_equal a b = true ↔
      ((a = Value.vnull ∧ b = Value.vnull) ∨
       (a ≠ Value.vnull ∧ b ≠ Value.vnull ∧ pyStrip (pyStr a) = pyStrip (pyStr b))))
    ∧ values_equal (Value.vstr "10") (Value.vint 10) = true := by
  constructor
  · intro a b
    cases a <;> cases b <;> simp [values_equal]
  · decide

/-- Claim C10: execute_sync with no active connection returns the failure
pair (false, "Not connected to database"), raises nothing, and performs
no store operation at all, whatever the diff report contains. -/
theorem execute_sync_not_connected (cfg : SyncConfig) (err : Nat → Option String)
    (diff_data : List DiffItem) :
    execute_sync cfg none err diff_data = (none, [], false, "Not connected to database") := rfl

/-! ### Per-row diff entry lemmas -/

theorem diffEntry_eq_none_iff (cfg : SyncConfig) (recs : List (Value × Row)) (r : Row) :
    diffEntry cfg recs r = none ↔ rowGetD r cfg.key_column_excel = Value.vnull := by
  unfold diffEntry
  by_cases h : rowGetD r cfg.key_column_excel = Value.vnull
  · simp [h]
  · simp only [if_neg h]
    cases hd : dget recs (rowGetD r cfg.key_column_excel) with
    | none => simp [h]
    | some db =>
      by_cases hc : computeChanges (buildExcelValues cfg.column_mapping r) db = [] <;>
        simp [hc, h]

theorem diffEntry_key (cfg : SyncConfig) (recs : List (Value × Row)) (r : Row)
    (e : DiffItem) (h : diffEntry cfg recs r = some e) :
    e.key_value = rowGetD r cfg.key_column_excel := by
  unfold diffEntry at h
  by_cases hn : rowGetD r cfg.key_column_excel = Value.vnull
  · simp [hn] at h
  · simp only [if_neg hn] at h
    cases hd : dget recs (rowGetD r cfg.key_column_excel) with
    | none => rw [hd] at h; simp only [Option.some.injEq] at h; rw [← h]
    | some db =>
      rw [hd] at h
      by_cases hc : computeChanges (buildExcelValues cfg.column_mapping r) db = []
      · simp only [hc, if_pos] at h
        simp only [Option.some.injEq] at h
        rw [← h]
      · simp only [if_neg hc] at h
        simp only [Option.some.injEq] at h
        rw [← h]

theorem generate_diff_keys (cfg : SyncConfig) (recs : List (Value × Row)) (rows : List Row) :
    (generate_diff cfg recs rows).map (fun e => e.key_value)
      = (rows.filter (fun r => rowGetD r cfg.key_column_excel != Value.vnull)).map
          (fun r => rowGetD r cfg.key_column_excel) := by
  induction rows with
  | nil => rfl
  | cons r rows ih =>
    simp only [generate_diff] at ih ⊢
    by_cases h : rowGetD r cfg.key_column_excel = Value.vnull
    · have hnone : diffEntry cfg recs r = none := (diffEntry_eq_none_iff cfg recs r).mpr h
      simp [List.filterMap_cons, List.filter_cons, hnone, h, ih]
    · obtain ⟨e, he⟩ : ∃ e, diffEntry cfg recs r = some e := by
        cases hd : diffEntry cfg recs r with
        | none => exact absurd ((diffEntry_eq_none_iff cfg recs r).mp hd) h
        | some e => exact ⟨e, rfl⟩
      simp [List.filterMap_cons, List.filter_cons, he, h, ih,
        diffEntry_key cfg recs r e he]

/-- Claim C6: the diff report has exactly one entry per source record with
a non-null key, keyed by that record's key, in source iteration order,
and no entry at all for a source record whose key is null. -/
theorem diff_report_order (cfg : SyncConfig) (recs : List (Value × Row)) (rows : List Row) :
    (generate_diff cfg recs rows).map (fun e => e.key_value)
      = (rows.filter (fun r => rowGetD r cfg.key_column_excel != Value.vnull)).map
          (fun r => rowGetD r cfg.key_column_excel) :=
  generate_diff_keys cfg recs rows

/-! ### Mapped values and change-set lemmas -/

theorem buildExcelValues_aux_nodup (mapping : List (String × String)) (row : Row)
    (init : List (String × Value)) (h : (init.map Prod.fst).Nodup) :
    ((mapping.foldl (fun acc p => dset acc p.2 (rowGetD row p.1)) init).map Prod.fst).Nodup := by
  induction mapping generalizing init with
  | nil => simpa
  | cons p mapping ih =>
    simp only [List.foldl_cons]
    exact ih _ (nodup_keys_dset _ _ _ h)

theorem buildExcelValues_nodup_keys (mapping : List (String × String)) (row : Row) :
    ((buildExcelValues mapping row).map Prod.fst).Nodup :=
  buildExcelValues_aux_nodup mapping row [] (by simp)

theorem buildExcelValues_aux_keys (mapping : List (String × String)) (row : Row)
    (init : List (String × Value)) (k : String)
    (h : k ∈ (mapping.foldl (fun acc p => dset acc p.2 (rowGetD row p.1)) init).map Prod.fst) :
    k ∈ init.map Prod.fst ∨ k ∈ mapping.map Prod.snd := by
  induction mapping generalizing init with
  | nil => exact Or.inl h
  | cons p mapping ih =>
    simp only [List.foldl_cons] at h
    rcases ih _ h with hi | hm
    · rcases (mem_keys_dset _ _ _ _).mp hi with hii | heq
      · exact Or.inl hii
      · exact Or.inr (by simp [heq])
    · exact Or.inr (by simp [hm])

theorem buildExcelValues_keys_subset (mapping : List (String × String)) (row : Row)
    (k : String) (h : k ∈ (buildExcelValues mapping row).map Prod.fst) :
    k ∈ mapping.map Prod.snd := by
  rcases buildExcelValues_aux_keys mapping row [] k h with hi | hm
  · simp at hi
  · exact hm

theorem computeChanges_eq (ev : List (String × Value)) (dbr : Row)
    (hn : (ev.map Prod.fst).Nodup) :
    computeChanges ev dbr = ev.filterMap (fun p =>
      if values_equal p.2 (rowGetD dbr p.1) then none
      else some (p.1, (p.2, rowGetD dbr p.1))) := by
  have aux : ∀ (l : List (String × Value)) (acc : List (String × (Value × Value))),
      (l.map Prod.fst).Nodup →
      (∀ k, k ∈ acc.map Prod.fst → k ∉ l.map Prod.fst) →
      l.foldl (fun acc p =>
        let d := rowGetD dbr p.1
        if values_equal p.2 d then acc else dset acc p.1 (p.2, d)) acc
        = acc ++ l.filterMap (fun p =>
            if values_equal p.2 (rowGetD dbr p.1) then none
            else some (p.1, (p.2, rowGetD dbr p.1))) := by
    intro l
    induction l with
    | nil => intro acc _ _; simp
    | cons p l ih =>
      intro acc hnl hdisj
      simp only [List.map_cons, List.nodup_cons] at hnl
      simp only [List.foldl_cons, List.filterMap_cons]
      by_cases hv : values_equal p.2 (rowGetD dbr p.1) = true
      · show l.foldl _ (if values_equal p.2 (rowGetD dbr p.1) then acc
          else dset acc p.1 (p.2, rowGetD dbr p.1)) = _
        rw [if_pos hv, if_pos hv]
        exact ih acc hnl.2 (fun k hk => fun hmem => hdisj k hk (by simp [hmem]))
      · show l.foldl _ (if values_equal p.2 (rowGetD dbr p.1) then acc
          else dset acc p.1 (p.2, rowGetD dbr p.1)) = _
        rw [if_neg hv, if_neg hv]
        have hp1 : p.1 ∉ acc.map Prod.fst := fun hmem => hdisj p.1 hmem (by simp)
        rw [dset_eq_append _ _ _ hp1]
        rw [ih (acc ++ [(p.1, (p.2, rowGetD dbr p.1))]) hnl.2 ?_]
        · simp
        · intro k hk
          simp only [List.map_append, List.mem_append] at hk
          rcases hk with hk | hk
          · exact fun hmem => hdisj k hk (by simp [hmem])
          · simp only [List.map_cons, List.map_nil, List.mem_singleton] at hk
            subst hk
            exact hnl.1
  unfold computeChanges
  exact aux ev [] hn (by simp)

theorem computeChanges_eq_nil_iff (ev : List (String × Value)) (dbr : Row)
    (hn : (ev.map Prod.fst).Nodup) :
    computeChanges ev dbr = [] ↔
      ∀ p ∈ ev, values_equal p.2 (rowGetD dbr p.1) = true := by
  rw [computeChanges_eq ev dbr hn, List.filterMap_eq_nil_iff]
  constructor
  · intro h p hp
    have := h p hp
    by_cases hv : values_equal p.2 (rowGetD dbr p.1) = true
    · exact hv
    · simp [hv] at this
  · intro h p hp
    simp [h p hp]

theorem filterMap_keys_sublist {κ β γ : Type} (f : κ × β → Option (κ × γ))
    (hf : ∀ p q, f p = some q → q.1 = p.1) (l : List (κ × β)) :
    ((l.filterMap f).map Prod.fst).Sublist (l.map Prod.fst) := by
  induction l with
  | nil => simp
  | cons p l ih =>
    simp only [List.filterMap_cons, List.map_cons]
    cases hfp : f p with
    | none => exact ih.cons p.1
    | some q =>
      simp only [List.map_cons, hf p q hfp]
      exact ih.cons₂ p.1

theorem computeChanges_keys_sublist (ev : List (String × Value)) (dbr : Row)
    (hn : (ev.map Prod.fst).Nodup) :
    ((computeChanges ev dbr).map Prod.fst).Sublist (ev.map Prod.fst) := by
  rw [computeChanges_eq ev dbr hn]
  apply filterMap_keys_sublist
  intro p q hq
  by_cases hv : values_equal p.2 (rowGetD dbr p.1) = true
  · simp [hv] at hq
  · simp only [hv] at hq
    simp only [Bool.false_eq_true, if_false, Option.some.injEq] at hq
    rw [← hq]

theorem computeChanges_nodup_keys (ev : List (String × Value)) (dbr : Row)
    (hn : (ev.map Prod.fst).Nodup) :
    ((computeChanges ev dbr).map Prod.fst).Nodup :=
  (computeChanges_keys_sublist ev dbr hn).nodup hn

theorem dget_computeChanges (ev : List (String × Value)) (dbr : Row)
    (hn : (ev.map Prod.fst).Nodup) (dc : String) (e : Value) (h : (dc, e) ∈ ev) :
    dget (computeChanges ev dbr) dc =
      if values_equal e (rowGetD dbr dc) then none else some (e, rowGetD dbr dc) := by
  rw [computeChanges_eq ev dbr hn]
  induction ev with
  | nil => simp at h
  | cons p ev ih =>
    simp only [List.map_cons, List.nodup_cons] at hn
    rcases List.mem_cons.mp h with heq | hmem
    · subst heq
      simp only [List.filterMap_cons]
      by_cases hv : values_equal e (rowGetD dbr dc) = true
      · simp only [hv, if_pos]
        rw [dget_eq_none_iff]
        intro hk
        refine hn.1 ((filterMap_keys_sublist _ ?_ ev).subset hk)
        intro p q hq
        by_cases hv2 : values_equal p.2 (rowGetD dbr p.1) = true
        · simp [hv2] at hq
        · simp only [hv2, Bool.false_eq_true, if_false, Option.some.injEq] at hq
          rw [← hq]
      · simp only [hv, Bool.false_eq_true, if_false]
        simp [dget]
    · have hdc : dc ∈ ev.map Prod.fst := List.mem_map.mpr ⟨(dc, e), hmem, rfl⟩
      have hne : p.1 ≠ dc := fun hf => hn.1 (hf ▸ hdc)
      simp only [List.filterMap_cons]
      by_cases hv : values_equal p.2 (rowGetD dbr p.1) = true
      · simp only [hv, if_pos]
        exact ih hn.2 hmem
      · simp only [hv, Bool.false_eq_true, if_false]
        rw [dget]
        simp only [hne, if_false]
        exact ih hn.2 hmem

/-! ### Classification of a source record -/

/-- Claim C2: for every configuration and every source record with a
non-null key, generate_diff emits one entry for the record; if the key is
absent from the fetched target records that entry is ADDED and carries
the full field-mapped projection of the source record (missing source
fields mapped to null by rowGetD), and if the key is present the entry is
MODIFIED exactly when some mapped column's value differs from the stored
target value under the comparator, and UNCHANGED otherwise. -/
theorem diff_classification (cfg : SyncConfig) (recs : List (Value × Row))
    (pre post : List Row) (r : Row)
    (hk : rowGetD r cfg.key_column_excel ≠ Value.vnull) :
    generate_diff cfg recs (pre ++ r :: post)
      = generate_diff cfg recs pre ++ (diffEntry cfg recs r).toList
          ++ generate_diff cfg recs post
    ∧ (dget recs (rowGetD r cfg.key_column_excel) = none →
        diffEntry cfg recs r = some
          { change_type := ChangeType.ADDED, key_value := rowGetD r cfg.key_column_excel,
            changes := none, excel_values := some (buildExcelValues cfg.column_mapping r) })
    ∧ (∀ dbr, dget recs (rowGetD r cfg.key_column_excel) = some dbr →
        ∃ e, diffEntry cfg recs r = some e ∧
          (e.change_type = ChangeType.MODIFIED ↔
            ∃ p ∈ buildExcelValues cfg.column_mapping r,
              values_equal p.2 (rowGetD dbr p.1) = false) ∧
          (e.change_type = ChangeType.UNCHANGED ↔
            ∀ p ∈ buildExcelValues cfg.column_mapping r,
              values_equal p.2 (rowGetD dbr p.1) = true)) := by
  refine ⟨?_, ?_, ?_⟩
  · simp [generate_diff, List.filterMap_append, List.filterMap_cons]
    cases hd : diffEntry cfg recs r <;> simp
  · intro hnone
    unfold diffEntry
    simp [hk, hnone]
  · intro dbr hsome
    have hn : ((buildExcelValues cfg.column_mapping r).map Prod.fst).Nodup :=
      buildExcelValues_nodup_keys cfg.column_mapping r
    by_cases hc : computeChanges (buildExcelValues cfg.column_mapping r) dbr = []
    · refine ⟨{ change_type := ChangeType.UNCHANGED,
                key_value := rowGetD r cfg.key_column_excel,
                changes := none, excel_values := none }, ?_, ?_, ?_⟩
      · unfold diffEntry
        simp [hk, hsome, hc]
      · constructor
        · intro habs; exact absurd habs (by simp)
        · intro ⟨p, hp, hne⟩
          have := (computeChanges_eq_nil_iff _ _ hn).mp hc p hp
          rw [this] at hne
          exact absurd hne (by simp)
      · constructor
        · intro _
          exact fun p hp => (computeChanges_eq_nil_iff _ _ hn).mp hc p hp
        · intro _; rfl
    · refine ⟨{ change_type := ChangeType.MODIFIED,
                key_value := rowGetD r cfg.key_column_excel,
                changes := some (computeChanges (buildExcelValues cfg.column_mapping r) dbr),
                excel_values := some (buildExcelValues cfg.column_mapping r) }, ?_, ?_, ?_⟩
      · unfold diffEntry
        simp [hk, hsome, hc]
      · constructor
        · intro _
          have : ¬ ∀ p ∈ buildExcelValues cfg.column_mapping r,
              values_equal p.2 (rowGetD dbr p.1) = true :=
            fun hall => hc ((computeChanges_eq_nil_iff _ _ hn).mpr hall)
          push_neg at this
          obtain ⟨p, hp, hne⟩ := this
          exact ⟨p, hp, by revert hne; cases values_equal p.2 (rowGetD dbr p.1) <;> simp⟩
        · intro _; rfl
      · constructor
        · intro habs; exact absurd habs (by simp)
        · intro hall
          exact absurd ((computeChanges_eq_nil_iff _ _ hn).mpr hall) hc

/-- Witness for diff_classification at a concrete input: a source row
with key 2 absent from the target records is classified ADDED with the
full projection. -/
theorem diff_classification_witness :
    (rowGetD [("id", Value.vint 2), ("name", Value.vstr "Bob")] "id" ≠ Value.vnull)
    ∧ diffEntry ⟨"public", "people", "id", "id", [("name", "name")]⟩ []
        [("id", Value.vint 2), ("name", Value.vstr "Bob")] = some
        { change_type := ChangeType.ADDED, key_value := Value.vint 2,
          changes := none,
          excel_values := some (buildExcelValues [("name", "name")]
            [("id", Value.vint 2), ("name", Value.vstr "Bob")]) } :=
  ⟨by decide,
   (diff_classification ⟨"public", "people", "id", "id", [("name", "name")]⟩ [] [] []
     [("id", Value.vint 2), ("name", Value.vstr "Bob")] (by decide)).2.1 rfl⟩

/-- Claim C7: in every generated diff report, an UNCHANGED entry carries
no mapped values and no changed columns, and a MODIFIED entry's
changed-column mapping is non-empty and holds exactly the target columns
of the projection whose value differs from the stored target value under
the comparator, paired with the (source, target) values. -/
theorem diff_invariants (cfg : SyncConfig) (recs : List (Value × Row)) (rows : List Row)
    (e : DiffItem) (he : e ∈ generate_diff cfg recs rows) :
    (e.change_type = ChangeType.UNCHANGED → e.changes = none ∧ e.excel_values = none)
    ∧ (e.change_type = ChangeType.ADDED → e.changes = none)
    ∧ (e.change_type = ChangeType.MODIFIED →
        ∃ m r dbr, e.changes = some m ∧ m ≠ [] ∧ r ∈ rows ∧
          e.key_value = rowGetD r cfg.key_column_excel ∧
          dget recs e.key_value = some dbr ∧
          e.excel_values = some (buildExcelValues cfg.column_mapping r) ∧
          (∀ p ∈ buildExcelValues cfg.column_mapping r,
            dget m p.1 = if values_equal p.2 (rowGetD dbr p.1) then none
              else some (p.2, rowGetD dbr p.1)) ∧
          (∀ q ∈ m, q.1 ∈ (buildExcelValues cfg.column_mapping r).map Prod.fst)) := by
  obtain ⟨r, hr, hre⟩ := List.mem_filterMap.mp he
  by_cases hk : rowGetD r cfg.key_column_excel = Value.vnull
  · rw [(diffEntry_eq_none_iff cfg recs r).mpr hk] at hre
    exact absurd hre (by simp)
  · have hn : ((buildExcelValues cfg.column_mapping r).map Prod.fst).Nodup :=
      buildExcelValues_nodup_keys cfg.column_mapping r
    unfold diffEntry at hre
    simp only [if_neg hk] at hre
    cases hd : dget recs (rowGetD r cfg.key_column_excel) with
    | none =>
      rw [hd] at hre
      simp only [Option.some.injEq] at hre
      subst hre
      refine ⟨by simp, fun _ => rfl, by simp⟩
    | some dbr =>
      rw [hd] at hre
      by_cases hc : computeChanges (buildExcelValues cfg.column_mapping r) dbr = []
      · simp only [hc, if_pos, Option.some.injEq] at hre
        subst hre
        refine ⟨fun _ => ⟨rfl, rfl⟩, by simp, by simp⟩
      · simp only [if_neg hc, Option.some.injEq] at hre
        subst hre
        refine ⟨by simp, by simp, fun _ => ?_⟩
        refine ⟨computeChanges (buildExcelValues cfg.column_mapping r) dbr, r, dbr,
          rfl, hc, hr, rfl, hd, rfl, ?_, ?_⟩
        · intro p hp
          have := dget_computeChanges (buildExcelValues cfg.column_mapping r) dbr hn
            p.1 p.2 (by simpa using hp)
          simpa using this
        · intro q hq
          exact (computeChanges_keys_sublist _ _ hn).subset
            (List.mem_map.mpr ⟨q, hq, rfl⟩)

/-- Witness for diff_invariants at a concrete input: the MODIFIED entry
for source name "Alicia" against stored name "Alice" satisfies the
invariants. -/
theorem diff_invariants_witness :
    ({ change_type := ChangeType.MODIFIED, key_value := Value.vint 1,
       changes := some [("name", (Value.vstr "Alicia", Value.vstr "Alice"))],
       excel_values := some [("name", Value.vstr "Alicia")] } : DiffItem)
      ∈ generate_diff ⟨"public", "people", "id", "id", [("name", "name")]⟩
          [(Value.vint 1, [("id", Value.vint 1), ("name", Value.vstr "Alice")])]
          [[("id", Value.vint 1), ("name", Value.vstr "Alicia")]]
    ∧ (({ change_type := ChangeType.MODIFIED, key_value := Value.vint 1,
          changes := some [("name", (Value.vstr "Alicia", Value.vstr "Alice"))],
          excel_values := some [("name", Value.vstr "Alicia")] } : DiffItem).change_type
            = ChangeType.UNCHANGED →
        ({ change_type := ChangeType.MODIFIED, key_value := Value.vint 1,
           changes := some [("name", (Value.vstr "Alicia", Value.vstr "Alice"))],
           excel_values := some [("name", Value.vstr "Alicia")] } : DiffItem).changes = none
        ∧ ({ change_type := ChangeType.MODIFIED, key_value := Value.vint 1,
             changes := some [("name", (Value.vstr "Alicia", Value.vstr "Alice"))],
             excel_values := some [("name", Value.vstr "Alicia")] } : DiffItem).excel_values
              = none) :=
  ⟨by decide,
   (diff_invariants ⟨"public", "people", "id", "id", [("name", "name")]⟩
     [(Value.vint 1, [("id", Value.vint 1), ("name", Value.vstr "Alice")])]
     [[("id", Value.vint 1), ("name", Value.vstr "Alicia")]] _ (by decide)).1⟩

/-! ### Mapping store compatibility -/

/-- Claim C9: a saved mapping's name appears in the compatibility query
result iff its recorded table identity equals the current one, its
required source fields are a subset of the available source fields, and
its required target columns are a subset of the available target
columns. -/
theorem compatible_mappings_iff (data : List (String × SavedMapping)) (tbl : String)
    (excel_cols db_cols : List String) (name : String) (m : SavedMapping)
    (hnodup : (data.map Prod.fst).Nodup) (hmem : (name, m) ∈ data) :
    name ∈ get_compatible_mappings data tbl excel_cols db_cols ↔
      (m.table = tbl ∧ (∀ c ∈ m.excel_cols_required, c ∈ excel_cols)
        ∧ (∀ c ∈ m.db_cols_required, c ∈ db_cols)) := by
  unfold get_compatible_mappings
  rw [List.mem_filterMap]
  constructor
  · rintro ⟨p, hp, hf⟩
    split_ifs at hf with h1 h2 h3
    · simp only [Option.some.injEq] at hf
      have hpm : p.2 = m := by
        have e1 : dget data p.1 = some p.2 := dget_of_mem hnodup (by simpa using hp)
        have e2 : dget data name = some m := dget_of_mem hnodup hmem
        rw [hf] at e1
        rw [e1] at e2
        exact (Option.some.injEq _ _).mp e2
      rw [← hpm]
      exact ⟨h1, h2, h3⟩
  · rintro ⟨h1, h2, h3⟩
    refine ⟨(name, m), hmem, ?_⟩
    show (if m.table = tbl then
        if ∀ c ∈ m.excel_cols_required, c ∈ excel_cols then
          if ∀ c ∈ m.db_cols_required, c ∈ db_cols then some name else none
        else none
      else none) = some name
    rw [if_pos h1, if_pos h2, if_pos h3]

/-- Witness for compatible_mappings_iff at a concrete input: a saved
mapping on the current table whose required columns are available is
reported compatible. -/
theorem compatible_mappings_iff_witness :
    ((["n1"].map (fun s => s)).Nodup
      ∧ ("n1", (⟨"public.people", "id", "id", [("name", "name")], ["id", "name"],
          ["id", "name"]⟩ : SavedMapping))
          ∈ [("n1", (⟨"public.people", "id", "id", [("name", "name")], ["id", "name"],
              ["id", "name"]⟩ : SavedMapping))])
    ∧ ("n1" ∈ get_compatible_mappings
        [("n1", ⟨"public.people", "id", "id", [("name", "name")], ["id", "name"],
            ["id", "name"]⟩)]
        "public.people" ["id", "name", "extra"] ["id", "name"] ↔
      (("public.people" : String) = "public.people"
        ∧ (∀ c ∈ (["id", "name"] : List String), c ∈ (["id", "name", "extra"] : List String))
        ∧ (∀ c ∈ (["id", "name"] : List String), c ∈ (["id", "name"] : List String)))) :=
  ⟨⟨by decide, by decide⟩,
   compatible_mappings_iff
     [("n1", ⟨"public.people", "id", "id", [("name", "name")], ["id", "name"], ["id", "name"]⟩)]
     "public.people" ["id", "name", "extra"] ["id", "name"] "n1"
     ⟨"public.people", "id", "id", [("name", "name")], ["id", "name"], ["id", "name"]⟩
     (by decide) (by decide)⟩

/-! ### Apply executor: filter, no-op short circuit, rollback -/

/-- Claim C8: execute_sync filters the report to the ADDED and MODIFIED
entries preserving report order, and when that filtered sequence is
empty it returns success immediately with the no-changes message,
performing no insert, no update, no commit and no rollback. -/
theorem execute_sync_noop (cfg : SyncConfig) (c : Conn) (err : Nat → Option String)
    (diff_data : List DiffItem) :
    (diff_data.filter isActionable).Sublist diff_data
    ∧ (∀ e ∈ diff_data.filter isActionable, isActionable e = true)
    ∧ (∀ e ∈ diff_data, isActionable e = true → e ∈ diff_data.filter isActionable)
    ∧ (diff_data.filter isActionable = [] →
        execute_sync cfg (some c) err diff_data = (some c, [], true, "No changes to apply")) := by
  refine ⟨List.filter_sublist diff_data, ?_, ?_, ?_⟩
  · intro e he
    exact (List.mem_filter.mp he).2
  · intro e he ha
    exact List.mem_filter.mpr ⟨he, ha⟩
  · intro h
    simp [execute_sync, h]

/-- Witness for execute_sync_noop at a concrete input: a report holding
only an UNCHANGED entry short-circuits to success with no operation. -/
theorem execute_sync_noop_witness :
    (([({ change_type := ChangeType.UNCHANGED, key_value := Value.vint 1,
          changes := none, excel_values := none } : DiffItem)].filter isActionable) = [])
    ∧ execute_sync ⟨"public", "people", "id", "id", [("name", "name")]⟩
        (some ⟨[], []⟩) (fun _ => none)
        [{ change_type := ChangeType.UNCHANGED, key_value := Value.vint 1,
           changes := none, excel_values := none }]
        = (some ⟨[], []⟩, [], true, "No changes to apply") :=
  ⟨by decide,
   (execute_sync_noop ⟨"public", "people", "id", "id", [("name", "name")]⟩
     ⟨[], []⟩ (fun _ => none)
     [{ change_type := ChangeType.UNCHANGED, key_value := Value.vint 1,
        changes := none, excel_values := none }]).2.2.2 (by decide)⟩

theorem applyChanges_err_propagates (cfg : SyncConfig) (err : Nat → Option String) :
    ∀ (l : List DiffItem) (i0 : Nat) (t : Table) (ins upd : Nat) (ops : List StoreOp),
      (∀ e ∈ l, isActionable e = true) →
      (∃ j, j < l.length ∧ (err (i0 + j)).isSome) →
      ∃ e2, (applyChanges cfg err l i0 t ins upd ops).2.2.2.2 = some e2
        ∧ ∃ j2, err j2 = some e2 := by
  intro l
  induction l with
  | nil =>
    intro i0 t ins upd ops _ hex
    obtain ⟨j, hj, _⟩ := hex
    simp at hj
  | cons item rest ih =>
    intro i0 t ins upd ops hact hex
    have hitem := hact item (by simp)
    cases hct : item.change_type with
    | UNCHANGED => rw [isActionable, hct] at hitem; simp at hitem
    | ADDED =>
      cases herr : err i0 with
      | some e =>
        refine ⟨e, ?_, i0, herr⟩
        unfold applyChanges
        rw [hct, herr]
      | none =>
        obtain ⟨j, hj, hs⟩ := hex
        cases j with
        | zero => rw [Nat.add_zero, herr] at hs; simp at hs
        | succ j2 =>
          have hrec := ih (i0 + 1) (insert_record cfg t item) (ins + 1) upd
            (ops ++ [StoreOp.opInsert item])
            (fun e he => hact e (by simp [he]))
            ⟨j2, by simp only [List.length_cons] at hj; omega, by
              have : i0 + 1 + j2 = i0 + (j2 + 1) := by omega
              rw [this]; exact hs⟩
          obtain ⟨e2, he2, hj2⟩ := hrec
          refine ⟨e2, ?_, hj2⟩
          unfold applyChanges
          rw [hct, herr]
          exact he2
    | MODIFIED =>
      cases herr : err i0 with
      | some e =>
        refine ⟨e, ?_, i0, herr⟩
        unfold applyChanges
        rw [hct, herr]
      | none =>
        obtain ⟨j, hj, hs⟩ := hex
        cases j with
        | zero => rw [Nat.add_zero, herr] at hs; simp at hs
        | succ j2 =>
          have hrec := ih (i0 + 1) (update_record cfg t item) ins (upd + 1)
            (ops ++ [StoreOp.opUpdate item])
            (fun e he => hact e (by simp [he]))
            ⟨j2, by simp only [List.length_cons] at hj; omega, by
              have : i0 + 1 + j2 = i0 + (j2 + 1) := by omega
              rw [this]; exact hs⟩
          obtain ⟨e2, he2, hj2⟩ := hrec
          refine ⟨e2, ?_, hj2⟩
          unfold applyChanges
          rw [hct, herr]
          exact he2

theorem applyChanges_ops_shape (cfg : SyncConfig) (err : Nat → Option String) :
    ∀ (l : List DiffItem) (i0 : Nat) (t : Table) (ins upd : Nat) (ops : List StoreOp),
      ∀ op ∈ (applyChanges cfg err l i0 t ins upd ops).2.2.2.1,
        op ∈ ops ∨ (∃ it, op = StoreOp.opInsert it) ∨ (∃ it, op = StoreOp.opUpdate it) := by
  intro l
  induction l with
  | nil => intro i0 t ins upd ops op hop; exact Or.inl hop
  | cons item rest ih =>
    intro i0 t ins upd ops op hop
    cases hct : item.change_type with
    | UNCHANGED =>
      unfold applyChanges at hop
      rw [hct] at hop
      exact ih _ _ _ _ _ op hop
    | ADDED =>
      unfold applyChanges at hop
      rw [hct] at hop
      cases herr : err i0 with
      | some e => rw [herr] at hop; exact Or.inl hop
      | none =>
        rw [herr] at hop
        rcases ih _ _ _ _ _ op hop with hin | h
        · rcases List.mem_append.mp hin with hin2 | hin2
          · exact Or.inl hin2
          · simp only [List.mem_singleton] at hin2
            exact Or.inr (Or.inl ⟨item, hin2⟩)
        · exact Or.inr h
    | MODIFIED =>
      unfold applyChanges at hop
      rw [hct] at hop
      cases herr : err i0 with
      | some e => rw [herr] at hop; exact Or.inl hop
      | none =>
        rw [herr] at hop
        rcases ih _ _ _ _ _ op hop with hin | h
        · rcases List.mem_append.mp hin with hin2 | hin2
          · exact Or.inl hin2
          · simp only [List.mem_singleton] at hin2
            exact Or.inr (Or.inr ⟨item, hin2⟩)
        · exact Or.inr h

/-- Claim C1: if some insert or update statement of the actionable
entries raises an error, execute_sync rolls the whole transaction back —
the committed table state is exactly the pre-apply committed state, and
no commit is performed — and returns failure with a message carrying the
error detail. -/
theorem execute_sync_rollback_on_error (cfg : SyncConfig) (c : Conn)
    (err : Nat → Option String) (diff_data : List DiffItem)
    (h : ∃ i, i < (diff_data.filter isActionable).length ∧ (err i).isSome) :
    ∃ ops e, execute_sync cfg (some c) err diff_data
        = (some { committed := c.committed, pending := c.committed },
           ops ++ [StoreOp.opRollback], false, "Sync failed: " ++ e)
      ∧ (∃ j, err j = some e)
      ∧ StoreOp.opCommit ∉ ops := by
  have hne : diff_data.filter isActionable ≠ [] := by
    obtain ⟨i, hi, _⟩ := h
    intro hnil
    rw [hnil] at hi
    simp at hi
  have hact : ∀ e ∈ diff_data.filter isActionable, isActionable e = true :=
    fun e he => (List.mem_filter.mp he).2
  have h0 : ∃ j, j < (diff_data.filter isActionable).length
      ∧ ((fun j => err (0 + j)) j).isSome = true := by
    obtain ⟨i, hi, hs⟩ := h
    exact ⟨i, hi, by simpa using hs⟩
  obtain ⟨e2, he2, hj2⟩ := applyChanges_err_propagates cfg err
    (diff_data.filter isActionable) 0 c.pending 0 0 [] hact h0
  rcases hres : applyChanges cfg err (diff_data.filter isActionable) 0 c.pending 0 0 []
    with ⟨t, ins, upd, ops, er⟩
  rw [hres] at he2
  simp only at he2
  subst he2
  refine ⟨ops, e2, ?_, hj2, ?_⟩
  · unfold execute_sync
    simp only [if_neg hne]
    rw [hres]
  · intro hc
    have := applyChanges_ops_shape cfg err (diff_data.filter isActionable) 0 c.pending 0 0 []
      StoreOp.opCommit (by rw [hres]; exact hc)
    rcases this with hin | ⟨it, hit⟩ | ⟨it, hit⟩
    · simp at hin
    · exact absurd hit (by simp)
    · exact absurd hit (by simp)

/-- Witness for execute_sync_rollback_on_error at a concrete input: a
report with one ADDED entry whose insert raises "boom" yields rollback
and the failure message. -/
theorem execute_sync_rollback_on_error_witness :
    (∃ i, i < (([(⟨ChangeType.ADDED, Value.vint 1, none,
            some [("name", Value.vstr "a")]⟩ : DiffItem)]).filter
          isActionable).length ∧ ((fun _ => some "boom") i : Option String).isSome)
    ∧ ∃ (ops : List StoreOp) (e : String),
        execute_sync ⟨"public", "people", "id", "id", [("name", "name")]⟩
        (some ⟨[[("id", Value.vint 7)]], [[("id", Value.vint 7)]]⟩) (fun _ => some "boom")
        [⟨ChangeType.ADDED, Value.vint 1, none, some [("name", Value.vstr "a")]⟩]
        = (some ⟨[[("id", Value.vint 7)]], [[("id", Value.vint 7)]]⟩,
           ops ++ [StoreOp.opRollback], false, "Sync failed: " ++ e)
      ∧ (∃ j : Nat, (fun _ => some "boom") j = some e)
      ∧ StoreOp.opCommit ∉ ops :=
  ⟨⟨0, by decide, by decide⟩,
   execute_sync_rollback_on_error ⟨"public", "people", "id", "id", [("name", "name")]⟩
     ⟨[[("id", Value.vint 7)]], [[("id", Value.vint 7)]]⟩ (fun _ => some "boom")
     [⟨ChangeType.ADDED, Value.vint 1, none, some [("name", Value.vstr "a")]⟩]
     ⟨0, by decide, by decide⟩⟩

/-! ### Empty field mapping: diff generation does not refuse -/

/-- Counterexample to claim C4: with an empty field mapping configured,
diff generation does not refuse — the target-row fetch is performed (with
an empty value-column list), and the diff completes normally. -/
theorem empty_mapping_fetch_performed :
    (generate_diff_run ⟨"public", "people", "id", "id", []⟩
        [[("id", Value.vint 1)]] [[("id", Value.vint 1)], [("id", Value.vint 2)]]).2
      = [⟨"public", "people", "id", []⟩]
    ∧ ¬ (generate_diff_run ⟨"public", "people", "id", "id", []⟩
        [[("id", Value.vint 1)]] [[("id", Value.vint 1)], [("id", Value.vint 2)]]).2 = []
    ∧ (generate_diff_run ⟨"public", "people", "id", "id", []⟩
        [[("id", Value.vint 1)]] [[("id", Value.vint 1)], [("id", Value.vint 2)]]).1
      = [⟨ChangeType.UNCHANGED, Value.vint 1, none, none⟩,
         ⟨ChangeType.ADDED, Value.vint 2, none, some []⟩] := by
  refine ⟨rfl, by decide, by decide⟩

/-- Amended claim C4: configured with an empty field mapping, diff
generation proceeds rather than refusing: exactly one target-row fetch
is performed, with an empty value-column list, and every non-null-key
source record is classified (ADDED with empty mapped values when its key
is absent from the target, UNCHANGED otherwise); no error is raised. -/
theorem empty_mapping_still_runs (cfg : SyncConfig) (t : Table) (rows : List Row)
    (h : cfg.column_mapping = []) :
    (generate_diff_run cfg t rows).2
      = [⟨cfg.schema, cfg.table, cfg.key_column_db, []⟩]
    ∧ ∀ e ∈ (generate_diff_run cfg t rows).1,
        (e.change_type = ChangeType.ADDED ∧ e.excel_values = some [])
        ∨ (e.change_type = ChangeType.UNCHANGED ∧ e.excel_values = none) := by
  constructor
  · simp [generate_diff_run, h]
  · intro e he
    simp only [generate_diff_run, generate_diff] at he
    obtain ⟨r, _, hre⟩ := List.mem_filterMap.mp he
    unfold diffEntry at hre
    by_cases hk : rowGetD r cfg.key_column_excel = Value.vnull
    · simp [hk] at hre
    · simp only [if_neg hk] at hre
      have hev : buildExcelValues cfg.column_mapping r = [] := by
        rw [h]; rfl
      cases hd : dget (fetch_records cfg.key_column_db (cfg.column_mapping.map Prod.snd) t)
          (rowGetD r cfg.key_column_excel) with
      | none =>
        rw [hd] at hre
        simp only [Option.some.injEq] at hre
        subst hre
        exact Or.inl ⟨rfl, by rw [hev]⟩
      | some dbr =>
        rw [hd] at hre
        have hch : computeChanges (buildExcelValues cfg.column_mapping r) dbr = [] := by
          rw [hev]; rfl
        simp only [hch, if_pos, Option.some.injEq] at hre
        subst hre
        exact Or.inr ⟨rfl, rfl⟩

/-- Witness for empty_mapping_still_runs at a concrete input. -/
theorem empty_mapping_still_runs_witness :
    ((⟨"public", "people", "id", "id", []⟩ : SyncConfig).column_mapping = [])
    ∧ ((generate_diff_run ⟨"public", "people", "id", "id", []⟩ [] [[("id", Value.vint 3)]]).2
        = [⟨"public", "people", "id", []⟩]
      ∧ ∀ e ∈ (generate_diff_run ⟨"public", "people", "id", "id", []⟩ []
          [[("id", Value.vint 3)]]).1,
          (e.change_type = ChangeType.ADDED ∧ e.excel_values = some [])
          ∨ (e.change_type = ChangeType.UNCHANGED ∧ e.excel_values = none)) :=
  ⟨rfl, empty_mapping_still_runs ⟨"public", "people", "id", "id", []⟩ []
    [[("id", Value.vint 3)]] rfl⟩

/-! ### Apply-then-diff: table-state lemmas -/

theorem lastRowWith_cons (kc : String) (k : Value) (r : Row) (t : Table) :
    lastRowWith kc k (r :: t)
      = match lastRowWith kc k t with
        | some r2 => some r2
        | none => if rowGetD r kc = k then some r else none := rfl

theorem dget_cons {κ α : Type} [DecidableEq κ] (q : κ × α) (m : List (κ × α)) (key : κ) :
    dget (q :: m) key = if q.1 = key then some q.2 else dget m key := by
  obtain ⟨a, b⟩ := q
  rfl

theorem dget_fetch_aux (kc : String) (vcs : List String) :
    ∀ (t : Table) (acc : List (Value × Row)) (k : Value),
      dget (t.foldl (fun recs row =>
          dset recs (rowGetD row kc) (mkFetchedRecord kc vcs row)) acc) k
        = match lastRowWith kc k t with
          | some r => some (mkFetchedRecord kc vcs r)
          | none => dget acc k := by
  intro t
  induction t with
  | nil => intro acc k; rfl
  | cons row t ih =>
    intro acc k
    simp only [List.foldl_cons]
    rw [ih, lastRowWith_cons]
    cases hlast : lastRowWith kc k t with
    | some r2 => rfl
    | none =>
      by_cases hk : rowGetD row kc = k
      · rw [if_pos hk]
        show dget (dset acc (rowGetD row kc) (mkFetchedRecord kc vcs row)) k
          = some (mkFetchedRecord kc vcs row)
        rw [hk, dget_dset_self]
      · rw [if_neg hk]
        show dget (dset acc (rowGetD row kc) (mkFetchedRecord kc vcs row)) k = dget acc k
        rw [dget_dset_ne _ _ _ _ hk]

theorem dget_fetch_records (kc : String) (vcs : List String) (t : Table) (k : Value) :
    dget (fetch_records kc vcs t) k
      = (lastRowWith kc k t).map (mkFetchedRecord kc vcs) := by
  unfold fetch_records
  rw [dget_fetch_aux kc vcs t [] k]
  cases lastRowWith kc k t <;> rfl

theorem lastRowWith_key (kc : String) (k : Value) :
    ∀ (t : Table) (r : Row), lastRowWith kc k t = some r → rowGetD r kc = k := by
  intro t
  induction t with
  | nil => intro r h; simp [lastRowWith] at h
  | cons row t ih =>
    intro r h
    rw [lastRowWith_cons] at h
    cases hlast : lastRowWith kc k t with
    | some r2 =>
      rw [hlast] at h
      simp only [Option.some.injEq] at h
      subst h
      exact ih r2 hlast
    | none =>
      rw [hlast] at h
      by_cases hk : rowGetD row kc = k
      · rw [if_pos hk] at h
        simp only [Option.some.injEq] at h
        subst h
        exact hk
      · rw [if_neg hk] at h
        simp at h

theorem lastRowWith_append_single (kc : String) (k : Value) (t : Table) (row : Row) :
    lastRowWith kc k (t ++ [row])
      = if rowGetD row kc = k then some row else lastRowWith kc k t := by
  induction t with
  | nil =>
    simp only [List.nil_append]
    rw [lastRowWith_cons]
    rfl
  | cons r t ih =>
    simp only [List.cons_append]
    rw [lastRowWith_cons, ih, lastRowWith_cons]
    by_cases hk : rowGetD row kc = k
    · rw [if_pos hk, if_pos hk]
    · rw [if_neg hk, if_neg hk]

theorem lastRowWith_map (kc : String) (k : Value) (t : Table) (f : Row → Row)
    (hf : ∀ r, rowGetD (f r) kc = rowGetD r kc) :
    lastRowWith kc k (t.map f) = (lastRowWith kc k t).map f := by
  induction t with
  | nil => rfl
  | cons r t ih =>
    simp only [List.map_cons]
    rw [lastRowWith_cons, ih, lastRowWith_cons]
    cases hlast : lastRowWith kc k t with
    | some r2 => rfl
    | none =>
      simp only [Option.map_none']
      rw [hf r]
      by_cases hk : rowGetD r kc = k
      · rw [if_pos hk, if_pos hk]
        rfl
      · rw [if_neg hk, if_neg hk]
        rfl

theorem rowGetD_rowApplyChanges_notmem (m : List (String × (Value × Value))) (c : String)
    (h : c ∉ m.map Prod.fst) : ∀ (r : Row),
    rowGetD (rowApplyChanges m r) c = rowGetD r c := by
  induction m with
  | nil => intro r; rfl
  | cons q m ih =>
    intro r
    simp only [List.map_cons, List.mem_cons] at h
    push_neg at h
    unfold rowApplyChanges
    simp only [List.foldl_cons]
    have hfold : List.foldl (fun acc p => dset acc p.1 p.2.1) (dset r q.1 q.2.1) m
        = rowApplyChanges m (dset r q.1 q.2.1) := rfl
    rw [hfold, ih h.2]
    unfold rowGetD
    rw [dget_dset_ne _ _ _ _ (Ne.symm h.1)]

theorem rowGetD_rowApplyChanges (m : List (String × (Value × Value)))
    (hm : (m.map Prod.fst).Nodup) (c : String) : ∀ (r : Row),
    rowGetD (rowApplyChanges m r) c
      = match dget m c with
        | some q => q.1
        | none => rowGetD r c := by
  induction m with
  | nil => intro r; rfl
  | cons q m ih =>
    intro r
    simp only [List.map_cons, List.nodup_cons] at hm
    unfold rowApplyChanges
    simp only [List.foldl_cons]
    have hfold : List.foldl (fun acc p => dset acc p.1 p.2.1) (dset r q.1 q.2.1) m
        = rowApplyChanges m (dset r q.1 q.2.1) := rfl
    rw [hfold, ih hm.2]
    by_cases hc : q.1 = c
    · subst hc
      have h1 : dget m q.1 = none := (dget_eq_none_iff m q.1).mpr hm.1
      rw [h1, dget_cons, if_pos rfl]
      show rowGetD (dset r q.1 q.2.1) q.1 = q.2.1
      unfold rowGetD
      rw [dget_dset_self]
      rfl
    · rw [dget_cons, if_neg hc]
      cases dget m c with
      | some q2 => rfl
      | none =>
        show rowGetD (dset r q.1 q.2.1) c = rowGetD r c
        unfold rowGetD
        rw [dget_dset_ne _ _ _ _ hc]

theorem rowGetD_mkFetchedRecord (kc : String) (vcs : List String) (row : Row) (c : String)
    (_hne : c ≠ kc) (hmem : c ∈ vcs) :
    rowGetD (mkFetchedRecord kc vcs row) c = rowGetD row c := by
  have h := dget_foldl_dset (fun c2 => rowGetD row c2) vcs [(kc, rowGetD row kc)] c
  rw [if_pos hmem] at h
  show (dget (mkFetchedRecord kc vcs row) c).getD Value.vnull = rowGetD row c
  unfold mkFetchedRecord
  rw [h]
  rfl

theorem applyChanges_no_err (cfg : SyncConfig) :
    ∀ (l : List DiffItem) (i0 : Nat) (t : Table) (ins upd : Nat) (ops : List StoreOp),
      (applyChanges cfg (fun _ => none) l i0 t ins upd ops).1 = l.foldl (applyOne cfg) t
      ∧ (applyChanges cfg (fun _ => none) l i0 t ins upd ops).2.2.2.2 = none := by
  intro l
  induction l with
  | nil => intro i0 t ins upd ops; exact ⟨rfl, rfl⟩
  | cons item rest ih =>
    intro i0 t ins upd ops
    unfold applyChanges
    cases hct : item.change_type with
    | ADDED =>
      simp only [List.foldl_cons, applyOne, hct]
      exact ih (i0 + 1) (insert_record cfg t item) (ins + 1) upd _
    | MODIFIED =>
      simp only [List.foldl_cons, applyOne, hct]
      exact ih (i0 + 1) (update_record cfg t item) ins (upd + 1) _
    | UNCHANGED =>
      simp only [List.foldl_cons, applyOne, hct]
      exact ih (i0 + 1) t ins upd ops

theorem execute_sync_no_err (cfg : SyncConfig) (t : Table) (diff_data : List DiffItem) :
    ∃ ops msg, execute_sync cfg (some ⟨t, t⟩) (fun _ => none) diff_data
      = (some ⟨(diff_data.filter isActionable).foldl (applyOne cfg) t,
               (diff_data.filter isActionable).foldl (applyOne cfg) t⟩, ops, true, msg) := by
  by_cases hnil : diff_data.filter isActionable = []
  · refine ⟨[], "No changes to apply", ?_⟩
    rw [hnil]
    simp [execute_sync, hnil]
  · obtain ⟨h1, h2⟩ := applyChanges_no_err cfg (diff_data.filter isActionable) 0 t 0 0 []
    rcases hres : applyChanges cfg (fun _ => none) (diff_data.filter isActionable) 0 t 0 0 []
      with ⟨T, ins, upd, ops, er⟩
    rw [hres] at h1 h2
    simp only at h1 h2
    subst h2
    refine ⟨ops ++ [StoreOp.opCommit],
      "Successfully applied changes: " ++ toString ins ++ " inserted, " ++
        toString upd ++ " updated", ?_⟩
    simp only [execute_sync]
    rw [if_neg hnil, hres, h1]

/-! ### Apply-then-diff: per-item lemmas -/

theorem diff_item_changes_cols (cfg : SyncConfig) (recs : List (Value × Row)) (rows : List Row)
    (e : DiffItem) (he : e ∈ generate_diff cfg recs rows) :
    ∀ c ∈ (e.changes.getD []).map Prod.fst, c ∈ cfg.column_mapping.map Prod.snd := by
  obtain ⟨r, hr, hre⟩ := List.mem_filterMap.mp he
  by_cases hk : rowGetD r cfg.key_column_excel = Value.vnull
  · rw [(diffEntry_eq_none_iff cfg recs r).mpr hk] at hre
    exact absurd hre (by simp)
  · unfold diffEntry at hre
    simp only [if_neg hk] at hre
    cases hd : dget recs (rowGetD r cfg.key_column_excel) with
    | none =>
      rw [hd] at hre
      simp only [Option.some.injEq] at hre
      subst hre
      simp
    | some dbr =>
      rw [hd] at hre
      by_cases hc : computeChanges (buildExcelValues cfg.column_mapping r) dbr = []
      · simp only [hc, if_pos, Option.some.injEq] at hre
        subst hre
        simp
      · simp only [if_neg hc, Option.some.injEq] at hre
        subst hre
        intro c hcm
        simp only [Option.getD_some] at hcm
        have hsub := (computeChanges_keys_sublist (buildExcelValues cfg.column_mapping r) dbr
          (buildExcelValues_nodup_keys cfg.column_mapping r)).subset hcm
        exact buildExcelValues_keys_subset cfg.column_mapping r c hsub

theorem diff_unique_entry (cfg : SyncConfig) (recs : List (Value × Row)) (rows : List Row)
    (hkeys : ((rows.filter (fun r => rowGetD r cfg.key_column_excel != Value.vnull)).map
        (fun r => rowGetD r cfg.key_column_excel)).Nodup)
    (r : Row) (hr : r ∈ rows) (hk : rowGetD r cfg.key_column_excel ≠ Value.vnull)
    (e : DiffItem) (he : e ∈ generate_diff cfg recs rows)
    (hek : e.key_value = rowGetD r cfg.key_column_excel) :
    diffEntry cfg recs r = some e := by
  obtain ⟨r2, hr2, hre2⟩ := List.mem_filterMap.mp he
  have hk2 : rowGetD r2 cfg.key_column_excel ≠ Value.vnull := by
    intro hnull
    rw [(diffEntry_eq_none_iff cfg recs r2).mpr hnull] at hre2
    exact absurd hre2 (by simp)
  have hkey2 : e.key_value = rowGetD r2 cfg.key_column_excel :=
    diffEntry_key cfg recs r2 e hre2
  have heq : rowGetD r2 cfg.key_column_excel = rowGetD r cfg.key_column_excel := by
    rw [← hkey2, hek]
  have hrf : r ∈ rows.filter (fun r => rowGetD r cfg.key_column_excel != Value.vnull) :=
    List.mem_filter.mpr ⟨hr, by simp [hk]⟩
  have hr2f : r2 ∈ rows.filter (fun r => rowGetD r cfg.key_column_excel != Value.vnull) :=
    List.mem_filter.mpr ⟨hr2, by simp [hk2]⟩
  have : r2 = r := List.inj_on_of_nodup_map hkeys hr2f hrf heq
  subst this
  exact hre2

theorem split_by_key (l : List DiffItem) (e : DiffItem) (he : e ∈ l)
    (hn : (l.map (fun d => d.key_value)).Nodup) :
    ∃ l1 l2, l = l1 ++ e :: l2
      ∧ (∀ d ∈ l1, d.key_value ≠ e.key_value)
      ∧ (∀ d ∈ l2, d.key_value ≠ e.key_value) := by
  obtain ⟨l1, l2, rfl⟩ := List.append_of_mem he
  refine ⟨l1, l2, rfl, ?_, ?_⟩
  · intro d hd hdk
    rw [List.map_append, List.nodup_append] at hn
    exact hn.2.2 (List.mem_map.mpr ⟨d, hd, rfl⟩) (by simp [hdk])
  · intro d hd hdk
    rw [List.map_append, List.nodup_append, List.map_cons, List.nodup_cons] at hn
    exact hn.2.1.1 (List.mem_map.mpr ⟨d, hd, hdk⟩)

theorem rowGetD_insert_head (kc : String) (kv : Value) (ev : List (String × Value)) :
    rowGetD ((kc, kv) :: ev) kc = kv := by
  unfold rowGetD
  rw [dget_cons]
  simp

theorem lastRowWith_applyOne_ne (cfg : SyncConfig) (item : DiffItem) (t : Table) (k : Value)
    (hkc : cfg.key_column_db ∉ cfg.column_mapping.map Prod.snd)
    (hkey : item.key_value ≠ k)
    (hcols : ∀ c ∈ (item.changes.getD []).map Prod.fst, c ∈ cfg.column_mapping.map Prod.snd) :
    lastRowWith cfg.key_column_db k (applyOne cfg t item)
      = lastRowWith cfg.key_column_db k t := by
  unfold applyOne
  cases hct : item.change_type with
  | UNCHANGED => rfl
  | ADDED =>
    unfold insert_record
    rw [lastRowWith_append_single, rowGetD_insert_head, if_neg hkey]
  | MODIFIED =>
    unfold update_record
    have hnotm : cfg.key_column_db ∉ (item.changes.getD []).map Prod.fst :=
      fun hmem => hkc (hcols cfg.key_column_db hmem)
    have hkeep : ∀ r, rowGetD (if rowGetD r cfg.key_column_db = item.key_value then
        rowApplyChanges (item.changes.getD []) r else r) cfg.key_column_db
        = rowGetD r cfg.key_column_db := by
      intro r
      by_cases hr : rowGetD r cfg.key_column_db = item.key_value
      · rw [if_pos hr, rowGetD_rowApplyChanges_notmem _ _ hnotm r]
      · rw [if_neg hr]
    rw [lastRowWith_map _ _ _ _ hkeep]
    cases hlast : lastRowWith cfg.key_column_db k t with
    | none => rfl
    | some r0 =>
      have hr0 : rowGetD r0 cfg.key_column_db = k := lastRowWith_key _ _ t r0 hlast
      simp only [Option.map_some']
      rw [hr0, if_neg (fun hx => hkey hx.symm)]

theorem lastRowWith_foldl_ne (cfg : SyncConfig) (k : Value)
    (hkc : cfg.key_column_db ∉ cfg.column_mapping.map Prod.snd) :
    ∀ (l : List DiffItem), (∀ e ∈ l, e.key_value ≠ k
        ∧ ∀ c ∈ (e.changes.getD []).map Prod.fst, c ∈ cfg.column_mapping.map Prod.snd) →
      ∀ (t : Table), lastRowWith cfg.key_column_db k (l.foldl (applyOne cfg) t)
        = lastRowWith cfg.key_column_db k t := by
  intro l
  induction l with
  | nil => intro _ t; rfl
  | cons item rest ih =>
    intro h t
    simp only [List.foldl_cons]
    rw [ih (fun e he => h e (by simp [he])) (applyOne cfg t item)]
    exact lastRowWith_applyOne_ne cfg item t k hkc (h item (by simp)).1 (h item (by simp)).2

theorem lastRowWith_insert_self (cfg : SyncConfig) (item : DiffItem) (t1 : Table) :
    lastRowWith cfg.key_column_db item.key_value (insert_record cfg t1 item)
      = some ((cfg.key_column_db, item.key_value) :: item.excel_values.getD []) := by
  unfold insert_record
  rw [lastRowWith_append_single, rowGetD_insert_head, if_pos rfl]

theorem lastRowWith_update_self (cfg : SyncConfig) (item : DiffItem) (t1 : Table) (r0 : Row)
    (hkc : cfg.key_column_db ∉ cfg.column_mapping.map Prod.snd)
    (hcols : ∀ c ∈ (item.changes.getD []).map Prod.fst, c ∈ cfg.column_mapping.map Prod.snd)
    (hlast : lastRowWith cfg.key_column_db item.key_value t1 = some r0) :
    lastRowWith cfg.key_column_db item.key_value (update_record cfg t1 item)
      = some (rowApplyChanges (item.changes.getD []) r0) := by
  unfold update_record
  have hnotm : cfg.key_column_db ∉ (item.changes.getD []).map Prod.fst :=
    fun hmem => hkc (hcols cfg.key_column_db hmem)
  have hkeep : ∀ r, rowGetD (if rowGetD r cfg.key_column_db = item.key_value then
      rowApplyChanges (item.changes.getD []) r else r) cfg.key_column_db
      = rowGetD r cfg.key_column_db := by
    intro r
    by_cases hr : rowGetD r cfg.key_column_db = item.key_value
    · rw [if_pos hr, rowGetD_rowApplyChanges_notmem _ _ hnotm r]
    · rw [if_neg hr]
  rw [lastRowWith_map _ _ _ _ hkeep, hlast]
  simp only [Option.map_some']
  rw [lastRowWith_key _ _ t1 r0 hlast, if_pos rfl]

theorem rediff_entry_of_lastRow (cfg : SyncConfig) (T2 : Table) (r : Row)
    (hkc : cfg.key_column_db ∉ cfg.column_mapping.map Prod.snd)
    (hk : rowGetD r cfg.key_column_excel ≠ Value.vnull)
    (rfin : Row)
    (hlast : lastRowWith cfg.key_column_db (rowGetD r cfg.key_column_excel) T2 = some rfin)
    (hall : ∀ p ∈ buildExcelValues cfg.column_mapping r,
        values_equal p.2 (rowGetD rfin p.1) = true) :
    diffEntry cfg (fetch_records cfg.key_column_db (cfg.column_mapping.map Prod.snd) T2) r
      = some ⟨ChangeType.UNCHANGED, rowGetD r cfg.key_column_excel, none, none⟩ := by
  have hdget : dget (fetch_records cfg.key_column_db (cfg.column_mapping.map Prod.snd) T2)
      (rowGetD r cfg.key_column_excel)
      = some (mkFetchedRecord cfg.key_column_db (cfg.column_mapping.map Prod.snd) rfin) := by
    rw [dget_fetch_records, hlast]
    rfl
  have hch : computeChanges (buildExcelValues cfg.column_mapping r)
      (mkFetchedRecord cfg.key_column_db (cfg.column_mapping.map Prod.snd) rfin) = [] := by
    rw [computeChanges_eq_nil_iff _ _ (buildExcelValues_nodup_keys cfg.column_mapping r)]
    intro p hp
    have hmem : p.1 ∈ cfg.column_mapping.map Prod.snd :=
      buildExcelValues_keys_subset cfg.column_mapping r p.1 (List.mem_map.mpr ⟨p, hp, rfl⟩)
    have hne : p.1 ≠ cfg.key_column_db := fun hx => hkc (hx ▸ hmem)
    rw [rowGetD_mkFetchedRecord _ _ _ _ hne hmem]
    exact hall p hp
  unfold diffEntry
  rw [if_neg hk, hdget]
  simp only [hch, if_pos]

theorem rediff_unchanged (cfg : SyncConfig) (t : Table) (rows : List Row)
    (recs : List (Value × Row))
    (hrecs : recs = fetch_records cfg.key_column_db (cfg.column_mapping.map Prod.snd) t)
    (chs : List DiffItem) (hchs : chs = (generate_diff cfg recs rows).filter isActionable)
    (T : Table) (hT : T = chs.foldl (applyOne cfg) t)
    (hkeys : ((rows.filter (fun r => rowGetD r cfg.key_column_excel != Value.vnull)).map
        (fun r => rowGetD r cfg.key_column_excel)).Nodup)
    (hkc : cfg.key_column_db ∉ cfg.column_mapping.map Prod.snd)
    (r : Row) (hr : r ∈ rows) (hk : rowGetD r cfg.key_column_excel ≠ Value.vnull) :
    diffEntry cfg (fetch_records cfg.key_column_db (cfg.column_mapping.map Prod.snd) T) r
      = some ⟨ChangeType.UNCHANGED, rowGetD r cfg.key_column_excel, none, none⟩ := by
  have hdkeys : ((generate_diff cfg recs rows).map (fun e => e.key_value)).Nodup := by
    rw [generate_diff_keys]
    exact hkeys
  have hchs_keys : (chs.map (fun e => e.key_value)).Nodup := by
    rw [hchs]
    exact ((List.filter_sublist _).map _).nodup hdkeys
  have hchs_sub : ∀ e ∈ chs, e ∈ generate_diff cfg recs rows := by
    rw [hchs]
    exact fun e he => List.mem_of_mem_filter he
  have hchs_cols : ∀ e ∈ chs, ∀ c ∈ (e.changes.getD []).map Prod.fst,
      c ∈ cfg.column_mapping.map Prod.snd :=
    fun e he => diff_item_changes_cols cfg recs rows e (hchs_sub e he)
  have hev_nodup := buildExcelValues_nodup_keys cfg.column_mapping r
  have hfr := dget_fetch_records cfg.key_column_db (cfg.column_mapping.map Prod.snd) t
    (rowGetD r cfg.key_column_excel)
  rw [← hrecs] at hfr
  cases hd : dget recs (rowGetD r cfg.key_column_excel) with
  | none =>
    have hre1 : diffEntry cfg recs r
        = some ⟨ChangeType.ADDED, rowGetD r cfg.key_column_excel, none,
            some (buildExcelValues cfg.column_mapping r)⟩ := by
      unfold diffEntry
      rw [if_neg hk, hd]
    have he1c : (⟨ChangeType.ADDED, rowGetD r cfg.key_column_excel, none,
        some (buildExcelValues cfg.column_mapping r)⟩ : DiffItem) ∈ chs := by
      rw [hchs]
      exact List.mem_filter.mpr ⟨List.mem_filterMap.mpr ⟨r, hr, hre1⟩, rfl⟩
    obtain ⟨l1, l2, hsplit, hl1, hl2⟩ := split_by_key chs _ he1c hchs_keys
    have harg1 : ∀ e ∈ l1, e.key_value ≠ rowGetD r cfg.key_column_excel
        ∧ ∀ c ∈ (e.changes.getD []).map Prod.fst, c ∈ cfg.column_mapping.map Prod.snd :=
      fun e he => ⟨hl1 e he,
        hchs_cols e (by rw [hsplit]; exact List.mem_append_left _ he)⟩
    have harg2 : ∀ e ∈ l2, e.key_value ≠ rowGetD r cfg.key_column_excel
        ∧ ∀ c ∈ (e.changes.getD []).map Prod.fst, c ∈ cfg.column_mapping.map Prod.snd :=
      fun e he => ⟨hl2 e he,
        hchs_cols e (by rw [hsplit]; exact List.mem_append_right _ (List.mem_cons_of_mem _ he))⟩
    have h0 : lastRowWith cfg.key_column_db (rowGetD r cfg.key_column_excel) t = none := by
      rw [hd] at hfr
      cases hlast : lastRowWith cfg.key_column_db (rowGetD r cfg.key_column_excel) t with
      | none => rfl
      | some rr => rw [hlast] at hfr; simp at hfr
    have h1 : lastRowWith cfg.key_column_db (rowGetD r cfg.key_column_excel)
        (l1.foldl (applyOne cfg) t) = none := by
      rw [lastRowWith_foldl_ne cfg _ hkc l1 harg1 t]
      exact h0
    have h2 : lastRowWith cfg.key_column_db (rowGetD r cfg.key_column_excel)
        (applyOne cfg (l1.foldl (applyOne cfg) t)
          (⟨ChangeType.ADDED, rowGetD r cfg.key_column_excel, none,
            some (buildExcelValues cfg.column_mapping r)⟩ : DiffItem))
        = some ((cfg.key_column_db, rowGetD r cfg.key_column_excel)
            :: buildExcelValues cfg.column_mapping r) :=
      lastRowWith_insert_self cfg
        (⟨ChangeType.ADDED, rowGetD r cfg.key_column_excel, none,
          some (buildExcelValues cfg.column_mapping r)⟩ : DiffItem)
        (l1.foldl (applyOne cfg) t)
    have h3 : lastRowWith cfg.key_column_db (rowGetD r cfg.key_column_excel) T
        = some ((cfg.key_column_db, rowGetD r cfg.key_column_excel)
            :: buildExcelValues cfg.column_mapping r) := by
      rw [hT, hsplit, List.foldl_append, List.foldl_cons,
        lastRowWith_foldl_ne cfg _ hkc l2 harg2 _]
      exact h2
    apply rediff_entry_of_lastRow cfg T r hkc hk _ h3
    intro p hp
    have hpmem : p.1 ∈ cfg.column_mapping.map Prod.snd :=
      buildExcelValues_keys_subset _ _ _ (List.mem_map.mpr ⟨p, hp, rfl⟩)
    have hpne : p.1 ≠ cfg.key_column_db := fun hx => hkc (hx ▸ hpmem)
    have hp2 : (p.1, p.2) ∈ buildExcelValues cfg.column_mapping r := by
      rw [Prod.mk.eta]
      exact hp
    have hval : rowGetD ((cfg.key_column_db, rowGetD r cfg.key_column_excel)
        :: buildExcelValues cfg.column_mapping r) p.1 = p.2 := by
      show (if cfg.key_column_db = p.1 then some (rowGetD r cfg.key_column_excel)
        else dget (buildExcelValues cfg.column_mapping r) p.1).getD Value.vnull = p.2
      rw [if_neg (Ne.symm hpne), dget_of_mem hev_nodup hp2]
      rfl
    rw [hval]
    exact values_equal_refl p.2
  | some dbr =>
    rw [hd] at hfr
    obtain ⟨r0, hr0, hmk⟩ := Option.map_eq_some'.mp hfr.symm
    by_cases hc : computeChanges (buildExcelValues cfg.column_mapping r) dbr = []
    · have hre1 : diffEntry cfg recs r
          = some ⟨ChangeType.UNCHANGED, rowGetD r cfg.key_column_excel, none, none⟩ := by
        unfold diffEntry
        rw [if_neg hk, hd]
        simp only [hc, if_pos]
      have hnok : ∀ d ∈ chs, d.key_value ≠ rowGetD r cfg.key_column_excel := by
        intro d hdm hdk
        have hsame := diff_unique_entry cfg recs rows hkeys r hr hk d (hchs_sub d hdm) hdk
        rw [hre1] at hsame
        have hdu := (Option.some.injEq _ _).mp hsame
        have hact : isActionable d = true := by
          rw [hchs] at hdm
          exact (List.mem_filter.mp hdm).2
        rw [← hdu] at hact
        simp [isActionable] at hact
      have harg : ∀ e ∈ chs, e.key_value ≠ rowGetD r cfg.key_column_excel
          ∧ ∀ c ∈ (e.changes.getD []).map Prod.fst, c ∈ cfg.column_mapping.map Prod.snd :=
        fun e he => ⟨hnok e he, hchs_cols e he⟩
      have h3 : lastRowWith cfg.key_column_db (rowGetD r cfg.key_column_excel) T = some r0 := by
        rw [hT, lastRowWith_foldl_ne cfg _ hkc chs harg t]
        exact hr0
      apply rediff_entry_of_lastRow cfg T r hkc hk r0 h3
      intro p hp
      have hpmem : p.1 ∈ cfg.column_mapping.map Prod.snd :=
        buildExcelValues_keys_subset _ _ _ (List.mem_map.mpr ⟨p, hp, rfl⟩)
      have hpne : p.1 ≠ cfg.key_column_db := fun hx => hkc (hx ▸ hpmem)
      have hall := (computeChanges_eq_nil_iff _ _ hev_nodup).mp hc p hp
      rw [← hmk, rowGetD_mkFetchedRecord _ _ _ _ hpne hpmem] at hall
      exact hall
    · have hre1 : diffEntry cfg recs r
          = some ⟨ChangeType.MODIFIED, rowGetD r cfg.key_column_excel,
              some (computeChanges (buildExcelValues cfg.column_mapping r) dbr),
              some (buildExcelValues cfg.column_mapping r)⟩ := by
        unfold diffEntry
        rw [if_neg hk, hd]
        simp only [if_neg hc]
      have he1c : (⟨ChangeType.MODIFIED, rowGetD r cfg.key_column_excel,
          some (computeChanges (buildExcelValues cfg.column_mapping r) dbr),
          some (buildExcelValues cfg.column_mapping r)⟩ : DiffItem) ∈ chs := by
        rw [hchs]
        exact List.mem_filter.mpr ⟨List.mem_filterMap.mpr ⟨r, hr, hre1⟩, rfl⟩
      obtain ⟨l1, l2, hsplit, hl1, hl2⟩ := split_by_key chs _ he1c hchs_keys
      have harg1 : ∀ e ∈ l1, e.key_value ≠ rowGetD r cfg.key_column_excel
          ∧ ∀ c ∈ (e.changes.getD []).map Prod.fst, c ∈ cfg.column_mapping.map Prod.snd :=
        fun e he => ⟨hl1 e he,
          hchs_cols e (by rw [hsplit]; exact List.mem_append_left _ he)⟩
      have harg2 : ∀ e ∈ l2, e.key_value ≠ rowGetD r cfg.key_column_excel
          ∧ ∀ c ∈ (e.changes.getD []).map Prod.fst, c ∈ cfg.column_mapping.map Prod.snd :=
        fun e he => ⟨hl2 e he,
          hchs_cols e (by rw [hsplit]; exact List.mem_append_right _ (List.mem_cons_of_mem _ he))⟩
      have h1 : lastRowWith cfg.key_column_db (rowGetD r cfg.key_column_excel)
          (l1.foldl (applyOne cfg) t) = some r0 := by
        rw [lastRowWith_foldl_ne cfg _ hkc l1 harg1 t]
        exact hr0
      have h2 : lastRowWith cfg.key_column_db (rowGetD r cfg.key_column_excel)
          (applyOne cfg (l1.foldl (applyOne cfg) t)
            (⟨ChangeType.MODIFIED, rowGetD r cfg.key_column_excel,
              some (computeChanges (buildExcelValues cfg.column_mapping r) dbr),
              some (buildExcelValues cfg.column_mapping r)⟩ : DiffItem))
          = some (rowApplyChanges (computeChanges (buildExcelValues cfg.column_mapping r) dbr)
              r0) :=
        lastRowWith_update_self cfg
          (⟨ChangeType.MODIFIED, rowGetD r cfg.key_column_excel,
            some (computeChanges (buildExcelValues cfg.column_mapping r) dbr),
            some (buildExcelValues cfg.column_mapping r)⟩ : DiffItem)
          (l1.foldl (applyOne cfg) t) r0 hkc (hchs_cols _ he1c) h1
      have h3 : lastRowWith cfg.key_column_db (rowGetD r cfg.key_column_excel) T
          = some (rowApplyChanges (computeChanges (buildExcelValues cfg.column_mapping r) dbr)
              r0) := by
        rw [hT, hsplit, List.foldl_append, List.foldl_cons,
          lastRowWith_foldl_ne cfg _ hkc l2 harg2 _]
        exact h2
      apply rediff_entry_of_lastRow cfg T r hkc hk _ h3
      intro p hp
      have hpmem : p.1 ∈ cfg.column_mapping.map Prod.snd :=
        buildExcelValues_keys_subset _ _ _ (List.mem_map.mpr ⟨p, hp, rfl⟩)
      have hpne : p.1 ≠ cfg.key_column_db := fun hx => hkc (hx ▸ hpmem)
      have hp2 : (p.1, p.2) ∈ buildExcelValues cfg.column_mapping r := by
        rw [Prod.mk.eta]
        exact hp
      have hm_nodup := computeChanges_nodup_keys (buildExcelValues cfg.column_mapping r) dbr
        hev_nodup
      have hrow := rowGetD_rowApplyChanges
        (computeChanges (buildExcelValues cfg.column_mapping r) dbr) hm_nodup p.1 r0
      have hdgm := dget_computeChanges (buildExcelValues cfg.column_mapping r) dbr
        hev_nodup p.1 p.2 hp2
      have hdb : rowGetD dbr p.1 = rowGetD r0 p.1 := by
        rw [← hmk]
        exact rowGetD_mkFetchedRecord _ _ _ _ hpne hpmem
      by_cases hvp : values_equal p.2 (rowGetD dbr p.1) = true
      · rw [if_pos hvp] at hdgm
        have hval : rowGetD (rowApplyChanges
            (computeChanges (buildExcelValues cfg.column_mapping r) dbr) r0) p.1
            = rowGetD r0 p.1 := by
          rw [hrow, hdgm]
        rw [hval, ← hdb]
        exact hvp
      · rw [if_neg hvp] at hdgm
        have hval : rowGetD (rowApplyChanges
            (computeChanges (buildExcelValues cfg.column_mapping r) dbr) r0) p.1 = p.2 := by
          rw [hrow, hdgm]
        rw [hval]
        exact values_equal_refl p.2

/-- Counterexample to claim C3 as stated: with two source rows sharing
key 1 against an empty target, execute_sync succeeds (two inserts), but
regenerating the diff against the updated target classifies the first
row MODIFIED (its value differs from the last-inserted duplicate), not
UNCHANGED. -/
theorem apply_then_diff_counterexample :
    (execute_sync ⟨"public", "people", "id", "id", [("name", "name")]⟩ (some ⟨[], []⟩)
        (fun _ => none)
        (generate_diff ⟨"public", "people", "id", "id", [("name", "name")]⟩
          (fetch_records "id" ["name"] [])
          [[("id", Value.vint 1), ("name", Value.vstr "a")],
           [("id", Value.vint 1), ("name", Value.vstr "b")]])).2.2.1 = true
    ∧ (execute_sync ⟨"public", "people", "id", "id", [("name", "name")]⟩ (some ⟨[], []⟩)
        (fun _ => none)
        (generate_diff ⟨"public", "people", "id", "id", [("name", "name")]⟩
          (fetch_records "id" ["name"] [])
          [[("id", Value.vint 1), ("name", Value.vstr "a")],
           [("id", Value.vint 1), ("name", Value.vstr "b")]])).1
      = some ⟨[[("id", Value.vint 1), ("name", Value.vstr "a")],
               [("id", Value.vint 1), ("name", Value.vstr "b")]],
              [[("id", Value.vint 1), ("name", Value.vstr "a")],
               [("id", Value.vint 1), ("name", Value.vstr "b")]]⟩
    ∧ ¬ (∀ e ∈ generate_diff ⟨"public", "people", "id", "id", [("name", "name")]⟩
          (fetch_records "id" ["name"]
            [[("id", Value.vint 1), ("name", Value.vstr "a")],
             [("id", Value.vint 1), ("name", Value.vstr "b")]])
          [[("id", Value.vint 1), ("name", Value.vstr "a")],
           [("id", Value.vint 1), ("name", Value.vstr "b")]],
        e.change_type = ChangeType.UNCHANGED) := by
  refine ⟨by decide, by decide, by decide⟩

/-- Amended claim C3: provided the non-null source key values are
pairwise distinct and the field mapping does not target the key column,
applying a generated diff report via execute_sync succeeds, and
regenerating the diff with the same configuration against the updated
committed target and the same source yields only UNCHANGED entries. -/
theorem apply_then_diff_idempotent (cfg : SyncConfig) (t : Table) (rows : List Row)
    (hkeys : ((rows.filter (fun r => rowGetD r cfg.key_column_excel != Value.vnull)).map
        (fun r => rowGetD r cfg.key_column_excel)).Nodup)
    (hkc : cfg.key_column_db ∉ cfg.column_mapping.map Prod.snd) :
    ∃ conn2 ops msg,
      execute_sync cfg (some ⟨t, t⟩) (fun _ => none)
          (generate_diff cfg
            (fetch_records cfg.key_column_db (cfg.column_mapping.map Prod.snd) t) rows)
        = (some conn2, ops, true, msg)
      ∧ ∀ e ∈ generate_diff cfg
            (fetch_records cfg.key_column_db (cfg.column_mapping.map Prod.snd)
              conn2.committed) rows,
          e.change_type = ChangeType.UNCHANGED := by
  obtain ⟨ops, msg, hex⟩ := execute_sync_no_err cfg t
    (generate_diff cfg
      (fetch_records cfg.key_column_db (cfg.column_mapping.map Prod.snd) t) rows)
  refine ⟨_, ops, msg, hex, ?_⟩
  show ∀ e ∈ generate_diff cfg
      (fetch_records cfg.key_column_db (cfg.column_mapping.map Prod.snd)
        (((generate_diff cfg
            (fetch_records cfg.key_column_db (cfg.column_mapping.map Prod.snd) t)
            rows).filter isActionable).foldl (applyOne cfg) t)) rows,
      e.change_type = ChangeType.UNCHANGED
  intro e he
  obtain ⟨r, hr, hre⟩ := List.mem_filterMap.mp he
  have hk : rowGetD r cfg.key_column_excel ≠ Value.vnull := by
    intro hnull
    rw [(diffEntry_eq_none_iff _ _ _).mpr hnull] at hre
    exact absurd hre (by simp)
  have hru := rediff_unchanged cfg t rows _ rfl _ rfl _ rfl hkeys hkc r hr hk
  rw [hru] at hre
  have := (Option.some.injEq _ _).mp hre
  rw [← this]

/-- Witness for apply_then_diff_idempotent at a concrete input: one
MODIFIED row and one ADDED row; after the apply, the rediff is all
UNCHANGED. -/
theorem apply_then_diff_idempotent_witness :
    (((([[("id", Value.vint 1), ("name", Value.vstr "Alicia")],
         [("id", Value.vint 2), ("name", Value.vstr "Bob")]] : List Row).filter
          (fun r => rowGetD r "id" != Value.vnull)).map
        (fun r => rowGetD r "id")).Nodup
      ∧ ("id" : String) ∉ ([("name", "name")] : List (String × String)).map Prod.snd)
    ∧ ∃ conn2 ops msg,
      execute_sync ⟨"public", "people", "id", "id", [("name", "name")]⟩
          (some ⟨[[("id", Value.vint 1), ("name", Value.vstr "Alice")]],
                 [[("id", Value.vint 1), ("name", Value.vstr "Alice")]]⟩) (fun _ => none)
          (generate_diff ⟨"public", "people", "id", "id", [("name", "name")]⟩
            (fetch_records "id" ["name"]
              [[("id", Value.vint 1), ("name", Value.vstr "Alice")]])
            [[("id", Value.vint 1), ("name", Value.vstr "Alicia")],
             [("id", Value.vint 2), ("name", Value.vstr "Bob")]])
        = (some conn2, ops, true, msg)
      ∧ ∀ e ∈ generate_diff ⟨"public", "people", "id", "id", [("name", "name")]⟩
            (fetch_records "id" ["name"] conn2.committed)
            [[("id", Value.vint 1), ("name", Value.vstr "Alicia")],
             [("id", Value.vint 2), ("name", Value.vstr "Bob")]],
          e.change_type = ChangeType.UNCHANGED :=
  ⟨⟨by decide, by decide⟩,
   apply_then_diff_idempotent ⟨"public", "people", "id", "id", [("name", "name")]⟩
     [[("id", Value.vint 1), ("name", Value.vstr "Alice")]]
     [[("id", Value.vint 1), ("name", Value.vstr "Alicia")],
      [("id", Value.vint 2), ("name", Value.vstr "Bob")]]
     (by decide) (by decide)⟩
